import Mathlib

/-!
Verification development for the SIMDVector repository
(`du1simd.hpp` and `du1test.cpp`).

The development shallowly embeds the aligned container `simd_vector`, its
element iterator `simd_vector_iterator`, the lane mapping methods
(`lower_block`, `upper_block`, `lower_offset`, `upper_offset`), the SIMD
capability operations of `du1simd::simd` (lane addition, lane reduction and
the boundary masks), and the two reduction routines `tester::sum` and
`tester::simd_sum` of the test driver.

Modelling conventions:
  * A lane of `k` elements is a function `Nat → Int` from the intra-lane
    index to the element value; only indices `< k` are relevant.  Integer
    values stand for the (exact) element contents; the float instantiations
    of the code perform the same selections and additions.
  * The buffer is a total function `Nat → Int` from element offset to value;
    lane `j` holds the elements at offsets `j*k + i` for `i < k`.
  * Iterator offsets relevant to the reduction claims are the nonnegative
    offsets `begin() + n`; they are modelled as `Nat`, on which the C++
    truncating `/` and `%` agree with `Nat` division and remainder.
  * Pointers are byte addresses; the null pointer is `Option.none`.
-/

namespace SIMDVector

/-! ### Lane mapping methods of `simd_vector_iterator` (du1simd.hpp 177-199)

`k = sizeof(S) / sizeof(T)` is the lane width.  The methods are functions of
the iterator offset only (the base pointer is merely reinterpreted). -/

/-- Method `lower_block` (du1simd.hpp 177-181): lane index `offset / k` of the
lane containing the position. -/
def lower_block (k off : Nat) : Nat := off / k

/-- Method `upper_block` (du1simd.hpp 183-187): lane index `(offset / k) + 1`,
one past the lane containing the position. -/
def upper_block (k off : Nat) : Nat := off / k + 1

/-- Method `lower_offset` (du1simd.hpp 189-193): `offset % k`, the start gap of
the position inside its lane. -/
def lower_offset (k off : Nat) : Nat := off % k

/-- Method `upper_offset` (du1simd.hpp 195-199): `(offset % k) - (k - 1)`, the
(nonpositive) end gap of the position inside its lane. -/
def upper_offset (k off : Nat) : Int := ((off % k : Nat) : Int) - ((k : Int) - 1)

/-! ### SIMD capability operations (du1test.cpp, struct `du1simd::simd`)

The masks generalize the `mask_data_` tables of `simd<float, __m128>`
(du1test.cpp 111-130) to lane width `k`: `lmask_[lgap]` keeps the intra-lane
indices `≥ lgap`, and `umask_[ugap + (k-1)]` keeps the indices `≤ k-1+ugap`.
At `k = 1` both masks are the identity, as in `simd<float, float>`. -/

/-- Operation `add` (du1test.cpp 74-77): componentwise lane addition. -/
def simd_add (a b : Nat → Int) : Nat → Int := fun i => a i + b i

/-- Operation `sum` (du1test.cpp 86-93): horizontal reduction of one lane of
width `k` to a scalar. -/
def lane_reduce (k : Nat) (a : Nat → Int) : Int := ∑ i in Finset.range k, a i

/-- Operation `mask_lower` (du1test.cpp 95-100): zero the first `lgap`
elements of the lane, keeping the intra-lane indices `≥ lgap`. -/
def mask_lower (a : Nat → Int) (lgap : Int) : Nat → Int :=
  fun i => if (i : Int) < lgap then 0 else a i

/-- Operation `mask_upper` (du1test.cpp 101-106): keep the intra-lane indices
`≤ (k-1) + ugap` and zero the rest (`ugap` ranges over `(-k, 0]`). -/
def mask_upper (k : Nat) (a : Nat → Int) (ugap : Int) : Nat → Int :=
  fun i => if ((k : Int) - 1 + ugap) < (i : Int) then 0 else a i

/-- Operation `mask_both` (du1test.cpp 107-110): `mask_upper` composed with
`mask_lower`. -/
def mask_both (k : Nat) (a : Nat → Int) (lgap ugap : Int) : Nat → Int :=
  mask_upper k (mask_lower a lgap) ugap

/-- Dereference of the lane iterator `simd_vector_simd_iterator` at lane index
`j` (du1simd.hpp 63): the lane of the `k` buffer elements starting at offset
`j * k`. -/
def lane_deref (buf : Nat → Int) (k j : Nat) : Nat → Int := fun i => buf (j * k + i)

/-! ### The two reduction routines of the test driver (du1test.cpp 153-190) -/

/-- Routine `tester::sum` (du1test.cpp 153-163): the plain element-by-element
left fold `for (; b != e; ++b) acc = acc + *b` over the offsets `[b, e)`. -/
def elem_sum (buf : Nat → Int) (b e : Nat) : Int :=
  (List.range (e - b)).foldl (fun acc t => acc + buf (b + t)) 0

/-- Interior loop of `tester::simd_sum` (du1test.cpp 184-187):
`for (++bb; bb != ee; ++bb) acc = simd_op::add(acc, *bb)`, modelled with the
iteration count `n = ee - bb` made explicit. -/
def simd_sum_loop (buf : Nat → Int) (k : Nat) : Nat → Nat → (Nat → Int) → (Nat → Int)
  | _, 0, acc => acc
  | bb, n + 1, acc => simd_sum_loop buf k (bb + 1) n (simd_add acc (lane_deref buf k bb))

/-- Routine `tester::simd_sum` (du1test.cpp 165-190): the lane-wise reduction
protocol over the element offsets `b` (begin) and `e` (end).  The comparisons
`bb == ee` compare lane iterators over the same base, hence compare the lane
indices. -/
def simd_sum (buf : Nat → Int) (k : Nat) (b e : Nat) : Int :=
  let bb := lower_block k b
  let ee := upper_block k e
  if bb = ee then 0
  else
    let ee := ee - 1
    if bb = ee then
      lane_reduce k
        (mask_both k (lane_deref buf k bb) (lower_offset k b : Int) (upper_offset k e))
    else
      let acc := mask_lower (lane_deref buf k bb) (lower_offset k b : Int)
      let acc := simd_sum_loop buf k (bb + 1) (ee - (bb + 1)) acc
      lane_reduce k (simd_add acc (mask_upper k (lane_deref buf k ee) (upper_offset k e)))

/-- Lane indices dereferenced by `tester::simd_sum` (du1test.cpp 165-190), in
order: `*bb` under `mask_lower` or `mask_both`, the interior lanes of the
loop, and `*bb` (equal to the decremented `ee`) under `mask_upper`. -/
def simd_sum_lanes (k : Nat) (b e : Nat) : List Nat :=
  let bb := lower_block k b
  let ee := upper_block k e
  if bb = ee then []
  else
    let ee := ee - 1
    if bb = ee then [bb]
    else bb :: ((List.range (ee - (bb + 1))).map (fun t => bb + 1 + t) ++ [ee])

/-! ### Helper lemmas about the embedded operations -/

lemma lane_reduce_add (k : Nat) (a b : Nat → Int) :
    lane_reduce k (simd_add a b) = lane_reduce k a + lane_reduce k b :=
  Finset.sum_add_distrib

lemma sum_Ico_shift (buf : Nat → Int) (c a b : Nat) :
    ∑ i in Finset.Ico a b, buf (c + i) = ∑ i in Finset.Ico (c + a) (c + b), buf i := by
  rw [Finset.sum_Ico_eq_sum_range, Finset.sum_Ico_eq_sum_range]
  have h : c + b - (c + a) = b - a := by omega
  rw [h]
  exact Finset.sum_congr rfl (fun i _ => by rw [Nat.add_assoc])

lemma lane_reduce_full (buf : Nat → Int) (k j : Nat) :
    lane_reduce k (lane_deref buf k j) = ∑ i in Finset.Ico (j * k) (j * k + k), buf i := by
  unfold lane_reduce lane_deref
  rw [Finset.range_eq_Ico, sum_Ico_shift buf (j * k) 0 k, Nat.add_zero]

lemma lane_reduce_mask_lower (buf : Nat → Int) (k j lg : Nat) (h : lg ≤ k) :
    lane_reduce k (mask_lower (lane_deref buf k j) (lg : Int)) =
      ∑ i in Finset.Ico (j * k + lg) (j * k + k), buf i := by
  unfold lane_reduce mask_lower lane_deref
  rw [← sum_Ico_shift buf (j * k) lg k]
  rw [Finset.range_eq_Ico, ← Finset.sum_Ico_consecutive _ (Nat.zero_le lg) h]
  have h1 : ∑ i in Finset.Ico 0 lg, (if (i : Int) < (lg : Int) then 0 else buf (j * k + i)) = 0 :=
    Finset.sum_eq_zero fun i hi => by
      rw [if_pos (by exact_mod_cast (Finset.mem_Ico.mp hi).2)]
  have h2 : ∀ i ∈ Finset.Ico lg k,
      (if (i : Int) < (lg : Int) then 0 else buf (j * k + i)) = buf (j * k + i) := fun i hi => by
    rw [if_neg (not_lt.mpr (by exact_mod_cast (Finset.mem_Ico.mp hi).1))]
  rw [h1, Finset.sum_congr rfl h2, zero_add]

lemma lane_reduce_mask_upper (buf : Nat → Int) (k j r : Nat) (h : r < k) :
    lane_reduce k (mask_upper k (lane_deref buf k j) ((r : Int) - ((k : Int) - 1))) =
      ∑ i in Finset.Ico (j * k) (j * k + (r + 1)), buf i := by
  unfold lane_reduce mask_upper lane_deref
  have hs : ∑ i in Finset.Ico 0 (r + 1), buf (j * k + i) =
      ∑ i in Finset.Ico (j * k) (j * k + (r + 1)), buf i := by
    rw [sum_Ico_shift buf (j * k) 0 (r + 1), Nat.add_zero]
  rw [← hs]
  have hc : ∀ i : Nat, ((k : Int) - 1 + ((r : Int) - ((k : Int) - 1)) < (i : Int)) ↔ r < i :=
    fun i => by omega
  simp only [hc]
  rw [Finset.range_eq_Ico, ← Finset.sum_Ico_consecutive _ (Nat.zero_le (r + 1)) h]
  have h1 : ∀ i ∈ Finset.Ico 0 (r + 1),
      (if r < i then (0 : Int) else buf (j * k + i)) = buf (j * k + i) := fun i hi => by
    rw [if_neg (not_lt.mpr (Nat.lt_succ_iff.mp (Finset.mem_Ico.mp hi).2))]
  have h2 : ∑ i in Finset.Ico (r + 1) k, (if r < i then (0 : Int) else buf (j * k + i)) = 0 :=
    Finset.sum_eq_zero fun i hi => by
      rw [if_pos (Nat.lt_of_succ_le (Finset.mem_Ico.mp hi).1)]
  rw [Finset.sum_congr rfl h1, h2, add_zero]

lemma lane_reduce_mask_both (buf : Nat → Int) (k j lg r : Nat) (hlr : lg ≤ r) (h : r < k) :
    lane_reduce k (mask_both k (lane_deref buf k j) (lg : Int) ((r : Int) - ((k : Int) - 1))) =
      ∑ i in Finset.Ico (j * k + lg) (j * k + (r + 1)), buf i := by
  unfold lane_reduce mask_both mask_upper mask_lower lane_deref
  rw [← sum_Ico_shift buf (j * k) lg (r + 1)]
  have hc : ∀ i : Nat, ((k : Int) - 1 + ((r : Int) - ((k : Int) - 1)) < (i : Int)) ↔ r < i :=
    fun i => by omega
  have hl : ∀ i : Nat, ((i : Int) < (lg : Int)) ↔ i < lg := fun i => by omega
  simp only [hc, hl]
  rw [Finset.range_eq_Ico,
    ← Finset.sum_Ico_consecutive _ (Nat.zero_le (r + 1)) h,
    ← Finset.sum_Ico_consecutive _ (Nat.zero_le lg) (Nat.le_succ_of_le hlr)]
  have h0 : ∑ i in Finset.Ico 0 lg,
      (if r < i then (0 : Int) else if i < lg then 0 else buf (j * k + i)) = 0 :=
    Finset.sum_eq_zero fun i hi => by
      have hilg : i < lg := (Finset.mem_Ico.mp hi).2
      rw [if_neg (not_lt.mpr (le_of_lt (lt_of_lt_of_le hilg hlr))), if_pos hilg]
  have h1 : ∀ i ∈ Finset.Ico lg (r + 1),
      (if r < i then (0 : Int) else if i < lg then 0 else buf (j * k + i)) = buf (j * k + i) :=
    fun i hi => by
      have hm := Finset.mem_Ico.mp hi
      rw [if_neg (not_lt.mpr (Nat.lt_succ_iff.mp hm.2)), if_neg (not_lt.mpr hm.1)]
  have h2 : ∑ i in Finset.Ico (r + 1) k,
      (if r < i then (0 : Int) else if i < lg then 0 else buf (j * k + i)) = 0 :=
    Finset.sum_eq_zero fun i hi => by
      rw [if_pos (Nat.lt_of_succ_le (Finset.mem_Ico.mp hi).1)]
  rw [h0, Finset.sum_congr rfl h1, h2, zero_add, add_zero]

lemma lane_reduce_loop (buf : Nat → Int) (k : Nat) :
    ∀ (n lo : Nat) (acc : Nat → Int),
      lane_reduce k (simd_sum_loop buf k lo n acc) =
        lane_reduce k acc + ∑ j in Finset.Ico lo (lo + n), lane_reduce k (lane_deref buf k j) := by
  intro n
  induction n with
  | zero => intro lo acc; simp [simd_sum_loop]
  | succ n ih =>
      intro lo acc
      rw [simd_sum_loop, ih, lane_reduce_add]
      rw [Finset.sum_eq_sum_Ico_succ_bot (show lo < lo + (n + 1) by omega)]
      have h : lo + 1 + n = lo + (n + 1) := by omega
      rw [h, add_assoc]

lemma sum_lanes_telescope (buf : Nat → Int) (k : Nat) :
    ∀ (n m : Nat),
      (∑ j in Finset.Ico m (m + n), ∑ i in Finset.Ico (j * k) (j * k + k), buf i) =
        ∑ i in Finset.Ico (m * k) ((m + n) * k), buf i := by
  intro n
  induction n with
  | zero => intro m; simp
  | succ n ih =>
      intro m
      have h : m + (n + 1) = (m + n) + 1 := rfl
      rw [h, Finset.sum_Ico_succ_top (Nat.le_add_right m n), ih]
      have h2 : ((m + n) + 1) * k = (m + n) * k + k := Nat.succ_mul _ _
      rw [h2]
      exact Finset.sum_Ico_consecutive buf
        (Nat.mul_le_mul_right k (Nat.le_add_right m n)) (Nat.le_add_right _ k)

lemma elem_sum_foldl (buf : Nat → Int) :
    ∀ (n b : Nat) (a : Int),
      (List.range n).foldl (fun acc t => acc + buf (b + t)) a =
        a + ∑ i in Finset.Ico b (b + n), buf i := by
  intro n
  induction n with
  | zero => intro b a; simp
  | succ n ih =>
      intro b a
      rw [List.range_succ, List.foldl_append, ih]
      show (a + ∑ i in Finset.Ico b (b + n), buf i) + buf (b + n) =
        a + ∑ i in Finset.Ico b ((b + n) + 1), buf i
      rw [Finset.sum_Ico_succ_top (Nat.le_add_right b n) buf, add_assoc]

/-- The plain element fold `tester::sum` computes the sum of the buffer over
the half-open offset interval. -/
lemma elem_sum_eq_sum_Ico (buf : Nat → Int) (b e : Nat) :
    elem_sum buf b e = ∑ i in Finset.Ico b e, buf i := by
  unfold elem_sum
  rw [elem_sum_foldl buf (e - b) b 0, zero_add]
  by_cases h : b ≤ e
  · rw [Nat.add_sub_cancel' h]
  · rw [Finset.Ico_eq_empty (by omega), Finset.Ico_eq_empty (by omega)]

/-- Central behavioral lemma: on any offsets `b ≤ e`, the protocol of
`tester::simd_sum` computes the sum of the buffer over the closed interval
`[b, e]`, that is, over the half-open interval `[b, e + 1)`. -/
lemma simd_sum_eq_sum_Ico (buf : Nat → Int) (k b e : Nat) (hk : 0 < k) (hbe : b ≤ e) :
    simd_sum buf k b e = ∑ i in Finset.Ico b (e + 1), buf i := by
  have hdb : b / k * k + b % k = b := Nat.div_add_mod' b k
  have hde : e / k * k + e % k = e := Nat.div_add_mod' e k
  have hmb : b % k < k := Nat.mod_lt _ hk
  have hme : e % k < k := Nat.mod_lt _ hk
  have hdiv : b / k ≤ e / k := Nat.div_le_div_right hbe
  simp only [simd_sum, lower_block, upper_block, lower_offset, upper_offset,
    Nat.add_sub_cancel]
  rw [if_neg (show ¬ b / k = e / k + 1 by omega)]
  by_cases hsame : b / k = e / k
  · rw [if_pos hsame]
    have hlr : b % k ≤ e % k := by
      rw [hsame] at hdb; omega
    rw [lane_reduce_mask_both buf k (b / k) (b % k) (e % k) hlr hme, hdb,
      show b / k * k + (e % k + 1) = e + 1 by rw [hsame]; omega]
  · rw [if_neg hsame]
    have hlt : b / k < e / k := lt_of_le_of_ne hdiv hsame
    rw [lane_reduce_add, lane_reduce_loop,
      lane_reduce_mask_lower buf k (b / k) (b % k) (le_of_lt hmb),
      lane_reduce_mask_upper buf k (e / k) (e % k) hme]
    have htel := sum_lanes_telescope buf k (e / k - (b / k + 1)) (b / k + 1)
    have hn : b / k + 1 + (e / k - (b / k + 1)) = e / k := by omega
    rw [hn] at htel
    rw [Finset.sum_congr rfl (fun j _ => lane_reduce_full buf k j), hn, htel, hdb,
      show b / k * k + k = (b / k + 1) * k from (Nat.succ_mul _ _).symm,
      show e / k * k + (e % k + 1) = e + 1 by omega]
    have hb1 : b ≤ (b / k + 1) * k := by rw [Nat.succ_mul]; omega
    have hb2 : (b / k + 1) * k ≤ e / k * k := Nat.mul_le_mul_right k (by omega)
    have hb3 : e / k * k ≤ e + 1 := by omega
    rw [Finset.sum_Ico_consecutive buf hb1 hb2, Finset.sum_Ico_consecutive buf
      (le_trans hb1 hb2) hb3]

/-! ### The container `simd_vector` and its element iterator (du1simd.hpp 145-410)

Pointers are modelled as byte addresses, with `Option.none` for the null
pointer.  `sT` stands for `sizeof(T)`; the lane type size `sizeof(S)` is
`k * sT`. -/

/-- Element iterator `simd_vector_iterator` (du1simd.hpp 145-260): a base
pointer into the buffer and a signed `ptrdiff_t` offset.  The `operator==` of
the code compares base and offset, which is structure equality here. -/
structure simd_vector_iterator where
  base : Option Nat
  offset : Int
deriving DecidableEq

/-- Binary difference `operator-` of two element iterators
(du1simd.hpp 242-245): the difference of the two offsets. -/
def it_sub (a b : simd_vector_iterator) : Int := a.offset - b.offset

/-- Exception `alignment_exception` (du1simd.hpp 26-29): carries no data. -/
structure alignment_exception where
deriving DecidableEq

/-- Container `simd_vector` (du1simd.hpp 284-410): lane width `k`, raw
allocation pointer, aligned begin and end pointers, and the logical element
count `content_size`. -/
structure simd_vector where
  k : Nat
  raw_block : Option Nat
  aligned_begin : Option Nat
  aligned_end : Option Nat
  content_size : Nat
deriving DecidableEq

/-- Method `begin` (du1simd.hpp 396-399): iterator on the aligned begin
pointer with offset 0. -/
def simd_vector.begin (v : simd_vector) : simd_vector_iterator :=
  ⟨v.aligned_begin, 0⟩

/-- Method `end` (du1simd.hpp 401-404): iterator on the aligned begin pointer
with offset `content_size`; named `end_` because `end` is reserved in Lean. -/
def simd_vector.end_ (v : simd_vector) : simd_vector_iterator :=
  ⟨v.aligned_begin, (v.content_size : Int)⟩

/-- Method `size` (du1simd.hpp 406-409). -/
def simd_vector.size (v : simd_vector) : Nat := v.content_size

/-- Size rounding in the constructor (du1simd.hpp 326):
`(s % k == 0) ? s : ((s / k) + 1) * k`. -/
def rounded_count (k s : Nat) : Nat := if s % k = 0 then s else (s / k + 1) * k

/-- Byte size passed to `aligned_alloc` in the GCC branch (du1simd.hpp 332):
`rounded_count * sizeof(T)`. -/
def gcc_alloc_size (k sT s : Nat) : Nat := rounded_count k s * sT

/-- GCC branch of the constructor (du1simd.hpp 319-366, `__GNUC__` case).
The call `aligned_alloc(sizeof(S), rounded_count * sizeof(T))` is modelled by
its result `alloc`: `none` for a NULL return (then the constructor throws
`alignment_exception`), `some p` for a returned byte address `p`.  On success
both `raw_block` and `aligned_begin` are the returned pointer and
`aligned_end = aligned_begin + content_size`. -/
def simd_vector_ctor_gcc (k sT s : Nat) (alloc : Option Nat) :
    Except alignment_exception simd_vector :=
  match alloc with
  | none => .error ⟨⟩
  | some p => .ok ⟨k, some p, some p, some (p + s * sT), s⟩

/-- Model of the C++ standard `std::align(alignment, size, ptr, space)` used
by the MSVC branch: it yields the smallest address `≥ p` that is a multiple
of `alignment`, provided the aligned region of `size` bytes still fits in the
`space` bytes starting at `p`; otherwise it yields the null result. -/
def std_align (alignment size p space : Nat) : Option Nat :=
  let q := (p + alignment - 1) / alignment * alignment
  if q + size ≤ p + space then some q else none

/-- MSVC branch of the constructor (du1simd.hpp 340-363): over-allocate
`required_count = rounded_count + k` elements with `new T[required_count]`
(modelled by the arbitrary byte address `p` of the fresh block), then locate
an aligned sub-region with `std::align`; throw `alignment_exception` if that
fails.  On success `raw_block` keeps the raw pointer `p` for deallocation and
`aligned_begin` is the aligned pointer. -/
def simd_vector_ctor_msvc (k sT s : Nat) (p : Nat) :
    Except alignment_exception simd_vector :=
  let rc := rounded_count k s
  let required_count := rc + k
  match std_align (k * sT) (rc * sT) p (required_count * sT) with
  | none => .error ⟨⟩
  | some q => .ok ⟨k, some p, some q, some (q + s * sT), s⟩

/-- Move constructor (du1simd.hpp 368-374): the constructed container copies
all five fields of the source; the three pointers of the source are then set
to `nullptr` while its `k` and `content_size` are left unchanged.  The result
pair is (constructed container, moved-from source). -/
def move_construct (v : simd_vector) : simd_vector × simd_vector :=
  (⟨v.k, v.raw_block, v.aligned_begin, v.aligned_end, v.content_size⟩,
   ⟨v.k, none, none, none, v.content_size⟩)

/-- Move assignment `operator=(self&&)` (du1simd.hpp 376-381): implemented as
`swap(v)`, so the target takes the full state of the source and the source
takes the previous full state of the target.  The result pair is
(new target state, new source state). -/
def move_assign (target source : simd_vector) : simd_vector × simd_vector :=
  (source, target)

/-- Deallocation performed by the destructor (du1simd.hpp 383-394): the
address released is `raw_block`; releasing the null pointer frees nothing. -/
def dtor_free (v : simd_vector) : Option Nat := v.raw_block

/-- Element-wise traversal `for (it = begin; it != end; ++it)` as written in
the test driver (du1test.cpp 241-244): the list of offsets visited, with an
explicit iteration bound `fuel`.  The loop test is the iterator
`operator!=`. -/
def traverse_from (e : simd_vector_iterator) : Nat → simd_vector_iterator → List Int
  | 0, _ => []
  | fuel + 1, it =>
      if it = e then [] else it.offset :: traverse_from e fuel ⟨it.base, it.offset + 1⟩

/-- Reinterpretation of an integer in a `w`-bit signed two-complement type:
the value congruent modulo `2^w` lying in `[-2^(w-1), 2^(w-1))`.  This models
storing an iterator offset in a `w`-bit `ptrdiff_t`, the concern raised by
the header comment of du1simd.hpp (lines 4-15). -/
def wrap_to_width (w : Nat) (n : Int) : Int :=
  (n + 2 ^ (w - 1)) % 2 ^ w - 2 ^ (w - 1)

/-! ### Helper lemmas about the allocator arithmetic -/

lemma rounded_count_dvd (k s : Nat) : k ∣ rounded_count k s := by
  unfold rounded_count
  by_cases h : s % k = 0
  · rw [if_pos h]; exact Nat.dvd_of_mod_eq_zero h
  · rw [if_neg h]; exact dvd_mul_left k (s / k + 1)

lemma le_rounded_count (k s : Nat) (hk : 0 < k) : s ≤ rounded_count k s := by
  unfold rounded_count
  by_cases h : s % k = 0
  · rw [if_pos h]
  · rw [if_neg h, Nat.succ_mul]
    have h1 : s / k * k + s % k = s := Nat.div_add_mod' s k
    have h2 : s % k < k := Nat.mod_lt _ hk
    omega

lemma rounded_count_min (k s m : Nat) (hk : 0 < k) (hdvd : k ∣ m) (hsm : s ≤ m) :
    rounded_count k s ≤ m := by
  unfold rounded_count
  by_cases h : s % k = 0
  · rw [if_pos h]; exact hsm
  · rw [if_neg h]
    have h1 : s / k * k + s % k = s := Nat.div_add_mod' s k
    have h2 : s % k < k := Nat.mod_lt _ hk
    have h3 : m / k * k = m := Nat.div_mul_cancel hdvd
    have h4 : s / k + 1 ≤ m / k := by
      by_contra hc
      have h5 : m / k ≤ s / k := by omega
      have h6 : m / k * k ≤ s / k * k := Nat.mul_le_mul_right k h5
      omega
    calc (s / k + 1) * k ≤ m / k * k := Nat.mul_le_mul_right k h4
      _ = m := h3

/-- With the `+ k` elements of over-allocation margin, the in-buffer
alignment of the MSVC branch always succeeds, whatever the raw address. -/
lemma std_align_succeeds (k sT s p : Nat) (hk : 0 < k) (hsT : 0 < sT) :
    std_align (k * sT) (rounded_count k s * sT) p ((rounded_count k s + k) * sT) =
      some ((p + k * sT - 1) / (k * sT) * (k * sT)) := by
  unfold std_align
  rw [if_pos]
  have hA : 0 < k * sT := Nat.mul_pos hk hsT
  have hq : (p + k * sT - 1) / (k * sT) * (k * sT) ≤ p + k * sT - 1 :=
    Nat.div_mul_le_self _ _
  rw [Nat.add_mul]
  omega

lemma std_align_result_div (alignment size p space q : Nat)
    (h : std_align alignment size p space = some q) : alignment ∣ q := by
  unfold std_align at h
  by_cases hc : (p + alignment - 1) / alignment * alignment + size ≤ p + space
  · rw [if_pos hc] at h
    exact Option.some_inj.mp h ▸ dvd_mul_left alignment _
  · rw [if_neg hc] at h
    exact absurd h (by simp)

lemma std_align_result_ge (alignment size p space q : Nat) (ha : 0 < alignment)
    (h : std_align alignment size p space = some q) : p ≤ q := by
  unfold std_align at h
  by_cases hc : (p + alignment - 1) / alignment * alignment + size ≤ p + space
  · rw [if_pos hc] at h
    have hq := Option.some_inj.mp h
    have h1 : p + alignment - 1 < ((p + alignment - 1) / alignment + 1) * alignment := by
      rw [Nat.succ_mul]
      have h2 : (p + alignment - 1) / alignment * alignment +
          (p + alignment - 1) % alignment = p + alignment - 1 := Nat.div_add_mod' _ _
      have h3 : (p + alignment - 1) % alignment < alignment := Nat.mod_lt _ ha
      omega
    rw [Nat.succ_mul] at h1
    omega
  · rw [if_neg hc] at h
    exact absurd h (by simp)

/-- Traversing from offset `c` to offset `c + n` over the same base visits
exactly the offsets `c, c + 1, ..., c + n - 1`. -/
lemma traverse_from_spec (base : Option Nat) :
    ∀ (n : Nat) (c : Int),
      traverse_from ⟨base, c + (n : Int)⟩ n ⟨base, c⟩ =
        (List.range n).map (fun t : Nat => c + (t : Int)) := by
  intro n
  induction n with
  | zero => intro c; rfl
  | succ n ih =>
      intro c
      rw [traverse_from]
      rw [if_neg (by simp only [simd_vector_iterator.mk.injEq]; push_cast; omega)]
      show c :: traverse_from ⟨base, c + ((n : Nat) + 1 : Int)⟩ n ⟨base, c + 1⟩ = _
      have he : c + ((n : Nat) + 1 : Int) = (c + 1) + (n : Int) := by ring
      rw [he, ih (c + 1), List.range_succ_eq_map, List.map_cons, List.map_map]
      have hf : ((fun t : Nat => c + (t : Int)) ∘ Nat.succ) =
          fun t : Nat => c + 1 + (t : Int) := by
        funext t
        simp only [Function.comp_apply, Nat.cast_succ]
        ring
      rw [hf]
      simp

/-! ### Claim theorems -/

/-- C9: for every non-empty sub-range `[b, e)` with `b` strictly before `e`
over the same buffer, the lane-wise reduction protocol of `tester::simd_sum`
folds exactly the elements at offsets `b` through `e` inclusive: it equals
the plain element-by-element fold over the half-open range `[b, e + 1)`,
because the end lane `e.upper_block() - 1` is masked with the end gap
`(e % k) - (k - 1)`, which keeps the elements of that lane up to and
including intra-lane index `e % k`. -/
theorem C9_simd_sum_folds_inclusive_range (buf : Nat → Int) (k b e : Nat)
    (hk : 0 < k) (hbe : b < e) :
    simd_sum buf k b e = elem_sum buf b (e + 1) := by
  rw [elem_sum_eq_sum_Ico, simd_sum_eq_sum_Ico buf k b e hk (le_of_lt hbe)]

/-- Witness for C9 at `k = 4`, buffer value `i` at offset `i`, sub-range
`[1, 11)`: both reductions over the inclusive range give 66. -/
theorem C9_witness :
    simd_sum (fun i => (i : Int)) 4 1 11 = elem_sum (fun i => (i : Int)) 1 12 ∧
    simd_sum (fun i => (i : Int)) 4 1 11 = 66 :=
  ⟨C9_simd_sum_folds_inclusive_range (fun i => (i : Int)) 4 1 11 (by decide) (by decide),
   by decide⟩

/-- C1: evaluation of the code at a failing input.  On the sub-range `[0, 1)`
of a buffer holding 1 at offset 0 and 100 at offset 1, with lane width 4, the
plain element-by-element fold of `tester::sum` gives 1 while the lane-wise
protocol of `tester::simd_sum` gives 101: the protocol also folds the element
at offset `e`, so it does not equal the fold over `[b, e)`, neither exactly
nor within any small relative tolerance. -/
theorem C1_protocol_not_equal_to_fold :
    elem_sum (fun i => if i = 0 then 1 else 100) 0 1 = 1 ∧
    simd_sum (fun i => if i = 0 then 1 else 100) 4 0 1 = 101 :=
  ⟨by decide, by decide⟩

/-- C2: evaluation of the code at a failing input.  Reducing the empty range
`[0, 0)` of a buffer holding 7 everywhere yields 7 instead of the identity 0
(the plain fold of the empty range), and the guard comparing
`b.lower_block()` with `b.upper_block()` can never detect the empty range,
because `upper_block` always exceeds `lower_block` by one on equal
offsets. -/
theorem C2_empty_range_not_identity :
    simd_sum (fun _ => 7) 4 0 0 = 7 ∧
    elem_sum (fun _ => 7) 0 0 = 0 ∧
    (∀ off : Nat, lower_block 4 off ≠ upper_block 4 off) :=
  ⟨by decide, by decide, fun off => by unfold lower_block upper_block; omega⟩

/-- C10: evaluation of the code at a failing input.  For a container of 4
elements with lane width 4 the allocation is rounded to `rounded_count = 4`
elements, i.e. exactly `rounded_count / k = 1` lane with index 0; yet the
reduction of the full range `[begin, end) = [0, 4)` dereferences the lanes 0
and 1, and lane 1 is not below `rounded_count / k`: the protocol reads one
lane past the allocated buffer whenever the end iterator is the container
end and the size is an exact multiple of the lane width. -/
theorem C10_protocol_reads_past_allocation :
    simd_sum_lanes 4 0 4 = [0, 1] ∧
    rounded_count 4 4 / 4 = 1 ∧
    ¬ (∀ j ∈ simd_sum_lanes 4 0 4, j < rounded_count 4 4 / 4) :=
  ⟨by decide, by decide, by decide⟩

/-- C3 counterexample: at lane width 4, the iterator at offset 3 has
`upper_offset` 0 although 3 is not divisible by 4, and the iterator at
offset 4 (a lane boundary) has `upper_offset` -3, not 0: the value is not 0
exactly on the positions whose offset is divisible by `k`. -/
theorem C3_counterexample :
    upper_offset 4 3 = 0 ∧ ¬ (3 % 4 = 0) ∧
    upper_offset 4 4 = -3 ∧ 4 % 4 = 0 :=
  ⟨by decide, by decide, by decide, by decide⟩

/-- C3 (amended): `upper_offset` returns `(offset % k) - (k - 1)`, a value
that always lies in `[-(k-1), 0]`; it equals 0 exactly when the position is
the last element of its lane, i.e. when `offset % k = k - 1` (equivalently,
when `offset + 1` is divisible by `k`), not when `offset` itself is
divisible by `k`. -/
theorem C3_upper_offset_range (k off : Nat) (hk : 0 < k) :
    upper_offset k off = ((off % k : Nat) : Int) - ((k : Int) - 1) ∧
    -((k : Int) - 1) ≤ upper_offset k off ∧
    upper_offset k off ≤ 0 ∧
    (upper_offset k off = 0 ↔ off % k = k - 1) := by
  unfold upper_offset
  have h : off % k < k := Nat.mod_lt _ hk
  exact ⟨rfl, by omega, by omega, by omega⟩

/-- Witness for C3 at `k = 4` and offset 7, the last position of lane 1:
the end gap is 0 and `7 % 4 = 3 = k - 1`. -/
theorem C3_witness :
    upper_offset 4 7 = ((7 % 4 : Nat) : Int) - ((4 : Int) - 1) ∧
    -((4 : Int) - 1) ≤ upper_offset 4 7 ∧
    upper_offset 4 7 ≤ 0 ∧
    (upper_offset 4 7 = 0 ↔ 7 % 4 = 4 - 1) :=
  C3_upper_offset_range 4 7 (by decide)

/-- C4 counterexample: moving from a container of 20 elements leaves the
moved-from container with null buffer pointers but with `size()` still
reporting 20 and `begin() != end()`; and after a swap-based move assignment
the moved-from source holds the previous state of the target (here a live
buffer at raw address 128), not an empty/null state. -/
theorem C4_counterexample :
    simd_vector.size (move_construct ⟨4, some 64, some 64, some 84, 20⟩).2 = 20 ∧
    simd_vector.size (move_construct ⟨4, some 64, some 64, some 84, 20⟩).2 ≠ 0 ∧
    simd_vector.begin (move_construct ⟨4, some 64, some 64, some 84, 20⟩).2 ≠
      simd_vector.end_ (move_construct ⟨4, some 64, some 64, some 84, 20⟩).2 ∧
    (move_assign ⟨4, some 128, some 128, some 148, 20⟩
        ⟨4, some 64, some 64, some 84, 20⟩).2.raw_block = some 128 :=
  ⟨by decide, by decide, by decide, by decide⟩

/-- C4 (amended): after move construction the new container observes the
complete pre-move state of the source (same size, same content, same
addresses), the moved-from source has all three pointers null, so its
destructor frees nothing and the allocation is freed exactly once (by the
new container); but the `content_size` of the moved-from source is left
unchanged, so its `size()` still reports the old count and
`begin() != end()` whenever that count is nonzero.  Move assignment swaps
the two complete states (each allocation is again freed exactly once when
both containers are destroyed), and the moved-from source receives the old
state of the target rather than an empty state. -/
theorem C4_move_semantics (A B : simd_vector) :
    (move_construct A).1 = A ∧
    (move_construct A).2.raw_block = none ∧
    (move_construct A).2.aligned_begin = none ∧
    (move_construct A).2.aligned_end = none ∧
    (move_construct A).2.content_size = A.content_size ∧
    dtor_free (move_construct A).2 = none ∧
    dtor_free (move_construct A).1 = dtor_free A ∧
    move_assign B A = (A, B) :=
  ⟨rfl, rfl, rfl, rfl, rfl, rfl, rfl, rfl⟩

lemma logical_bound_aux (v : simd_vector) :
    it_sub v.end_ v.begin = (v.content_size : Int) ∧
    v.size = v.content_size ∧
    traverse_from v.end_ v.content_size v.begin =
      (List.range v.content_size).map (fun t : Nat => (t : Int)) ∧
    ∀ o ∈ traverse_from v.end_ v.content_size v.begin,
      0 ≤ o ∧ o < (v.content_size : Int) := by
  have ht : traverse_from v.end_ v.content_size v.begin =
      (List.range v.content_size).map (fun t : Nat => (t : Int)) := by
    have h := traverse_from_spec v.aligned_begin v.content_size 0
    simp only [zero_add] at h
    exact h
  refine ⟨by simp [it_sub, simd_vector.end_, simd_vector.begin], rfl, ht, ?_⟩
  intro o ho
  rw [ht, List.mem_map] at ho
  obtain ⟨t, htm, rfl⟩ := ho
  have h2 : t < v.content_size := List.mem_range.mp htm
  exact ⟨Int.natCast_nonneg t, by exact_mod_cast h2⟩

/-- C5: for every successfully constructed container (under either
allocation branch) with requested element count `s`, `end() - begin() = s`
exactly and `size() = s`, regardless of the internal rounding of the
allocation; element-wise traversal from `begin()` to `end()` visits exactly
the offsets `0, ..., s-1`, and every visited offset is below `s`, so the
padding positions in `[s, rounded_count)` are never visited. -/
theorem C5_logical_bound (k sT s : Nat) :
    (∀ (alloc : Option Nat) (v : simd_vector),
      simd_vector_ctor_gcc k sT s alloc = .ok v →
      it_sub v.end_ v.begin = (s : Int) ∧ v.size = s ∧
      traverse_from v.end_ s v.begin = (List.range s).map (fun t : Nat => (t : Int)) ∧
      ∀ o ∈ traverse_from v.end_ s v.begin, 0 ≤ o ∧ o < (s : Int)) ∧
    (∀ (p : Nat) (v : simd_vector),
      simd_vector_ctor_msvc k sT s p = .ok v →
      it_sub v.end_ v.begin = (s : Int) ∧ v.size = s ∧
      traverse_from v.end_ s v.begin = (List.range s).map (fun t : Nat => (t : Int)) ∧
      ∀ o ∈ traverse_from v.end_ s v.begin, 0 ≤ o ∧ o < (s : Int)) := by
  constructor
  · intro alloc v h
    have hcs : v.content_size = s := by
      cases alloc with
      | none => exact absurd h (by simp [simd_vector_ctor_gcc])
      | some p =>
          simp only [simd_vector_ctor_gcc, Except.ok.injEq] at h
          rw [← h]
    rw [← hcs]
    exact logical_bound_aux v
  · intro p v h
    have hcs : v.content_size = s := by
      simp only [simd_vector_ctor_msvc] at h
      rcases hsa : std_align (k * sT) (rounded_count k s * sT) p
          ((rounded_count k s + k) * sT) with _ | q
      · rw [hsa] at h; exact absurd h (by simp)
      · rw [hsa] at h
        simp only [Except.ok.injEq] at h
        rw [← h]
    rw [← hcs]
    exact logical_bound_aux v

/-- Witness for C5: the GCC branch with `k = 4`, `sizeof(T) = 1`, requested
count 6 and an allocation at byte address 32 yields the container
`⟨4, 32, 32, 38, 6⟩`; its iterator difference is 6, its size is 6 and its
traversal visits the offsets 0..5. -/
theorem C5_witness :
    it_sub (simd_vector.end_ ⟨4, some 32, some 32, some 38, 6⟩)
        (simd_vector.begin ⟨4, some 32, some 32, some 38, 6⟩) = (6 : Int) ∧
    simd_vector.size ⟨4, some 32, some 32, some 38, 6⟩ = 6 ∧
    traverse_from (simd_vector.end_ ⟨4, some 32, some 32, some 38, 6⟩) 6
        (simd_vector.begin ⟨4, some 32, some 32, some 38, 6⟩) =
      (List.range 6).map (fun t : Nat => (t : Int)) := by
  have h := (C5_logical_bound 4 1 6).1 (some 32) ⟨4, some 32, some 32, some 38, 6⟩ rfl
  exact ⟨h.1, h.2.1, h.2.2.1⟩

/-- C6: evaluation of the code at the failing configuration that the header
comment of du1simd.hpp (lines 4-15) itself describes: on a platform whose
`ptrdiff_t` is a signed 32-bit type, for a container of `2^31 + 1` one-byte
elements the difference `end() - begin()` reinterpreted in that type wraps
to `-(2^31 - 1)` instead of the true element count `2^31 + 1`; a 64-bit
difference type represents the count exactly. -/
theorem C6_ptrdiff_truncation :
    (simd_vector_ctor_gcc 4 1 (2 ^ 31 + 1) (some 0)).map
        (fun v => wrap_to_width 32 (it_sub v.end_ v.begin)) =
      .ok (-((2 : Int) ^ 31 - 1)) ∧
    (-((2 : Int) ^ 31 - 1) ≠ ((2 : Int) ^ 31 + 1)) ∧
    (simd_vector_ctor_gcc 4 1 (2 ^ 31 + 1) (some 0)).map
        (fun v => wrap_to_width 64 (it_sub v.end_ v.begin)) =
      .ok ((2 : Int) ^ 31 + 1) :=
  ⟨by rfl, by decide, by rfl⟩

/-- C7: construction raises `alignment_exception` exactly when the aligned
allocation cannot be satisfied, and the error value carries no container
state.  In the GCC branch the failure happens precisely when `aligned_alloc`
returns NULL; in the MSVC over-allocation branch it happens precisely when
`std::align` finds no aligned sub-region, which with the `+ k` margin never
occurs; on success the container has exactly `s` logical elements. -/
theorem C7_error_exactly_on_allocation_failure (k sT s : Nat)
    (hk : 0 < k) (hsT : 0 < sT) :
    (∀ alloc : Option Nat,
      simd_vector_ctor_gcc k sT s alloc = .error ⟨⟩ ↔ alloc = none) ∧
    (∀ (alloc : Option Nat) (v : simd_vector),
      simd_vector_ctor_gcc k sT s alloc = .ok v → v.size = s) ∧
    (∀ p : Nat,
      (simd_vector_ctor_msvc k sT s p = .error ⟨⟩ ↔
        std_align (k * sT) (rounded_count k s * sT) p
          ((rounded_count k s + k) * sT) = none)) ∧
    (∀ p : Nat, ¬ simd_vector_ctor_msvc k sT s p = .error ⟨⟩) ∧
    (∀ (p : Nat) (v : simd_vector),
      simd_vector_ctor_msvc k sT s p = .ok v → v.size = s) := by
  refine ⟨?_, ?_, ?_, ?_, ?_⟩
  · intro alloc
    cases alloc <;> simp [simd_vector_ctor_gcc]
  · intro alloc v h
    cases alloc with
    | none => exact absurd h (by simp [simd_vector_ctor_gcc])
    | some p =>
        simp only [simd_vector_ctor_gcc, Except.ok.injEq] at h
        rw [← h]; rfl
  · intro p
    simp only [simd_vector_ctor_msvc]
    rw [std_align_succeeds k sT s p hk hsT]
    simp
  · intro p
    simp only [simd_vector_ctor_msvc]
    rw [std_align_succeeds k sT s p hk hsT]
    simp
  · intro p v h
    simp only [simd_vector_ctor_msvc] at h
    rw [std_align_succeeds k sT s p hk hsT] at h
    simp only [Except.ok.injEq] at h
    rw [← h]; rfl

/-- Witness for C7 at `k = 4`, `sizeof(T) = 1`, requested count 6: a NULL
result of `aligned_alloc` makes the GCC branch throw, and the MSVC branch at
raw address 3 does not throw. -/
theorem C7_witness :
    (simd_vector_ctor_gcc 4 1 6 none = .error ⟨⟩ ↔ (none : Option Nat) = none) ∧
    ¬ simd_vector_ctor_msvc 4 1 6 3 = .error ⟨⟩ :=
  ⟨(C7_error_exactly_on_allocation_failure 4 1 6 (by decide) (by decide)).1 none,
   (C7_error_exactly_on_allocation_failure 4 1 6 (by decide) (by decide)).2.2.2.1 3⟩

/-- C8: under either allocation strategy, the aligned begin address of a
successfully constructed container is a multiple of `sizeof(S) = k * sT`
(for the GCC branch this relies on the `aligned_alloc` contract that the
returned pointer is aligned to the requested alignment, taken as a
hypothesis on the allocation oracle); the rounded element count is the
smallest multiple of `k` that is at least the requested count `s`; and
every logical element index `i < s` lies in a lane with index below
`rounded_count / k`, hence inside a complete allocated lane. -/
theorem C8_alignment_invariant (k sT s : Nat) (hk : 0 < k) (hsT : 0 < sT) :
    (∀ (alloc : Option Nat) (v : simd_vector),
      (∀ q, alloc = some q → k * sT ∣ q) →
      simd_vector_ctor_gcc k sT s alloc = .ok v →
      ∃ a, v.aligned_begin = some a ∧ k * sT ∣ a) ∧
    (∀ (p : Nat) (v : simd_vector),
      simd_vector_ctor_msvc k sT s p = .ok v →
      ∃ a, v.aligned_begin = some a ∧ k * sT ∣ a) ∧
    (k ∣ rounded_count k s ∧ s ≤ rounded_count k s ∧
      ∀ m, k ∣ m → s ≤ m → rounded_count k s ≤ m) ∧
    (∀ i, i < s → i / k < rounded_count k s / k) := by
  refine ⟨?_, ?_, ⟨rounded_count_dvd k s, le_rounded_count k s hk,
    fun m hdvd hsm => rounded_count_min k s m hk hdvd hsm⟩, ?_⟩
  · intro alloc v hctr h
    cases alloc with
    | none => exact absurd h (by simp [simd_vector_ctor_gcc])
    | some p =>
        simp only [simd_vector_ctor_gcc, Except.ok.injEq] at h
        exact ⟨p, by rw [← h], hctr p rfl⟩
  · intro p v h
    simp only [simd_vector_ctor_msvc] at h
    rw [std_align_succeeds k sT s p hk hsT] at h
    simp only [Except.ok.injEq] at h
    exact ⟨(p + k * sT - 1) / (k * sT) * (k * sT), by rw [← h], dvd_mul_left _ _⟩
  · intro i hi
    have h1 : i < rounded_count k s := lt_of_lt_of_le hi (le_rounded_count k s hk)
    have h2 : rounded_count k s / k * k = rounded_count k s :=
      Nat.div_mul_cancel (rounded_count_dvd k s)
    rw [Nat.div_lt_iff_lt_mul hk, h2]
    exact h1

/-- Witness for C8 at `k = 4`, `sizeof(T) = 1`, requested count 6: the
rounded count is a multiple of 4 that is at least 6 (it is 8), and element
5 lies in lane 1, below `rounded_count / k = 2`. -/
theorem C8_witness :
    (4 ∣ rounded_count 4 6 ∧ 6 ≤ rounded_count 4 6) ∧
    5 / 4 < rounded_count 4 6 / 4 :=
  ⟨⟨(C8_alignment_invariant 4 1 6 (by decide) (by decide)).2.2.1.1,
    (C8_alignment_invariant 4 1 6 (by decide) (by decide)).2.2.1.2.1⟩,
   (C8_alignment_invariant 4 1 6 (by decide) (by decide)).2.2.2 5 (by decide)⟩

end SIMDVector
